import Mathlib

/-!
Verification of weegfx's font-conversion tools (`tools/font.py`, `tools/bdf.py`,
`tools/fontconv.py`, `tools/bdfconv.py`) against their natural-language
specification.

The Python sources are shallowly embedded: strings are `List Char` (named `Str`),
Python text streams are `List Str` (one entry per `readline` result, without the
trailing newline), Python exceptions are an explicit `Err` sum carried in
`Except`/`Option`, and the unbounded `while` loops of the sources take a fuel
parameter (running out of fuel is the `outOfFuel` error, distinct from every
error the Python code can raise).
-/

namespace Weegfx

/-- Python strings, embedded as character lists. -/
abbrev Str := List Char

/-- Errors of the embedded programs.  Each constructor stands for one Python
exception site; `outOfFuel` is the artefact of bounding the source's loops. -/
inductive Err where
  | outOfFuel
  | invalidRange
  | attributeError
  | typeError
  | keyError
  | indexError
  | valueError
  | expectedBitmap
  | malformedBitmapRow
  | mismatchedEnd
  | unexpectedRecordKind
  | duplicateKey
  | missingBBX
  | inconsistentGlyphBox
  deriving DecidableEq

/-- Explicit error-propagating sequencing (Python's exception flow): run `x`;
on success feed its value to `f`, on an exception propagate it. -/
def ebind {α β : Type} (x : Except Err α) (f : α → Except Err β) : Except Err β :=
  match x with
  | .error e => .error e
  | .ok a => f a

theorem ebind_ok {α β : Type} (a : α) (f : α → Except Err β) : ebind (.ok a) f = f a := rfl

theorem ebind_error {α β : Type} (e : Err) (f : α → Except Err β) :
    ebind (.error e : Except Err α) f = .error e := rfl

/-- Python `str.isspace` / `strip` character class (ASCII part of Python's whitespace,
which is all the sources ever meet). -/
def pyIsSpace (c : Char) : Bool :=
  c = ' ' || c = '\t' || c = '\n' || c = '\r' || c = '\x0b' || c = '\x0c'

/-- Python `s.strip()`. -/
def trimChars (s : Str) : Str :=
  ((s.dropWhile pyIsSpace).reverse.dropWhile pyIsSpace).reverse

/-- Source `tools/font.py` `row_width`: bits per stored bitmap row.  Python `//` is
floor division, i.e. `Int.fdiv`. -/
def row_width (width : Int) : Int :=
  -((-width).fdiv 8) * 8

/-- Source `tools/bdf.py` `bdf_width` (same expression as `row_width`). -/
def bdf_width (width : Int) : Int :=
  -((-width).fdiv 8) * 8

/-- Characterization of `row_width` in terms of Euclidean division (valid for every `w`). -/
theorem row_width_ediv (w : Int) : row_width w = ((w + 7) / 8) * 8 := by
  unfold row_width
  rw [Int.fdiv_eq_ediv _ (by norm_num)]
  omega

/-- The per-row byte count `row_width w // 8` computed by the sources. -/
theorem row_width_fdiv8 (w : Int) : (row_width w).fdiv 8 = (w + 7) / 8 := by
  rw [row_width_ediv, Int.fdiv_eq_ediv _ (by norm_num), Int.mul_ediv_cancel _ (by norm_num)]

/-- C9: for `w ≥ 0` the implementation's `-((-w) // 8) * 8` is `w` rounded up to
the next multiple of 8, namely `((w + 7) // 8) * 8`, and it is divisible by 8;
`bdf_width` computes the same function. -/
theorem c9_theorem (w : Int) (h : 0 ≤ w) :
    row_width w = ((w + 7).fdiv 8) * 8 ∧ row_width w % 8 = 0 ∧ bdf_width w = row_width w := by
  refine ⟨?_, ?_, rfl⟩
  · rw [row_width_ediv, Int.fdiv_eq_ediv _ (by norm_num)]
  · rw [row_width_ediv]
    omega

/-- Witness for `c9_theorem` at `w = 5`. -/
theorem c9_witness :
    row_width 5 = (((5 : Int) + 7).fdiv 8) * 8 ∧ row_width 5 % 8 = 0 ∧
      bdf_width 5 = row_width 5 :=
  c9_theorem 5 (by decide)

/-! ## Line source (`nextline` in `bdf.py` / `bdfconv.py`) -/

/-- A raw stream line is skipped when `line.isspace()` (true of blank lines,
whose raw form always carries the `\n` stripped off in this embedding) or when
it starts with `COMMENT`. -/
def skipLine (l : Str) : Bool :=
  l.all pyIsSpace || ("COMMENT".toList).isPrefixOf l

/-- Source `nextline(stream)`: next non-skipped line, stripped, paired with the rest
of the stream; the empty string on end of stream. -/
def nextline : List Str → Str × List Str
  | [] => ([], [])
  | l :: ls => if skipLine l then nextline ls else (trimChars l, ls)

/-- Every line of the rest-stream returned by `nextline` is a line of the
input stream. -/
theorem nextline_rest_subset (lines : List Str) :
    ∀ x ∈ (nextline lines).2, x ∈ lines := by
  induction lines with
  | nil => intro x hx; simpa [nextline] using hx
  | cons l ls ih =>
    intro x hx
    by_cases h : skipLine l
    · simp only [nextline, h, if_true] at hx
      exact List.mem_cons_of_mem _ (ih x hx)
    · simp only [nextline, h, if_false] at hx
      exact List.mem_cons_of_mem _ hx

/-- The line returned by `nextline` is either the end-of-stream marker or the
stripped form of some non-skipped line of the stream. -/
theorem nextline_line_spec (lines : List Str) :
    (nextline lines).1 = [] ∨
      ∃ l ∈ lines, skipLine l = false ∧ (nextline lines).1 = trimChars l := by
  induction lines with
  | nil => left; rfl
  | cons l ls ih =>
    by_cases h : skipLine l
    · rcases ih with h1 | ⟨l0, hm, hs, he⟩
      · left; simpa [nextline, h] using h1
      · right; exact ⟨l0, List.mem_cons_of_mem _ hm, hs, by simpa [nextline, h] using he⟩
    · right
      exact ⟨l, List.mem_cons_self _ _, by simpa using h, by simp [nextline, h]⟩

/-! ## Hex-byte decoding for `BdfBitmap.parse_from` -/

/-- Value of one hexadecimal digit, as accepted by Python's `int(_, 16)`. -/
def hexDigitVal (c : Char) : Option Nat :=
  if '0' ≤ c ∧ c ≤ '9' then some (c.toNat - '0'.toNat)
  else if 'a' ≤ c ∧ c ≤ 'f' then some (c.toNat - 'a'.toNat + 10)
  else if 'A' ≤ c ∧ c ≤ 'F' then some (c.toNat - 'A'.toNat + 10)
  else none

/-- Python `int(s, 16)` restricted to the tokens this program feeds it (length
one or two, no whitespace: whitespace was filtered out before slicing, and an
underscore is only legal *between* two digits, impossible at these lengths):
an optional sign followed by at least one hex digit. -/
def pyIntHex : Str → Option Int
  | s =>
    let p : Bool × Str :=
      match s with
      | '-' :: r => (true, r)
      | '+' :: r => (false, r)
      | r => (false, r)
    match p.2.mapM hexDigitVal with
    | some ds =>
      if ds = [] then none
      else
        let v : Int := ds.foldl (fun a d => a * 16 + (d : Int)) 0
        some (if p.1 then -v else v)
    | none => none

/-- The source's `range(0, len(line_hex), 2)` slicing: split into 2-character
chunks, a final odd character standing alone. -/
def chunks2 : Str → List Str
  | [] => []
  | [a] => [[a]]
  | a :: b :: rest => [a, b] :: chunks2 rest

/-- Decode every 2-character slice of a (stripped) bitmap line, as the inner
`for col in range(0, len(line_hex), 2)` loop does; a slice rejected by
`int(_, 16)` raises `ValueError` (the spec's `MalformedBitmapRow`). -/
def decodeChunks : List Str → Except Err (List Int)
  | [] => .ok []
  | c :: cs =>
    match pyIntHex c with
    | none => .error .malformedBitmapRow
    | some b => ebind (decodeChunks cs) (fun bs => .ok (b :: bs))

/-- Bytes contributed by one line: whitespace removed, then 2-character slices
decoded. -/
def decode_bitmap_line (line : Str) : Except Err (List Int) :=
  decodeChunks (chunks2 (line.filter (fun c => !pyIsSpace c)))

/-- Structure `BdfBitmap`: parsed glyph pixel data. -/
structure BdfBitmap where
  width : Int
  bdfWidth : Int
  height : Int
  data : List Int
  deriving DecidableEq

/-- The `while bits_read < bits_to_read` loop of `BdfBitmap.parse_from`:
fetches a line, appends every byte of it, and repeats.  Fuel bounds the
iteration count (the Python loop never terminates on a truncated stream,
`nextline` then returning `''` forever). -/
def parse_bitmap_loop : Nat → List Str → Int → Int → List Int →
    Except Err (List Int × List Str)
  | 0, _, _, _, _ => .error .outOfFuel
  | fuel + 1, lines, bitsToRead, bitsRead, acc =>
    if bitsRead < bitsToRead then
      ebind (decode_bitmap_line (nextline lines).1) (fun bs =>
        parse_bitmap_loop fuel (nextline lines).2 bitsToRead
          (bitsRead + 8 * (bs.length : Int)) (acc ++ bs))
    else
      .ok (acc, lines)

/-- Source `BdfBitmap.parse_from(stream, width, height, first_line)` with the first
line always supplied (`first_line=None` only fetches it from the same stream
first). -/
def parse_bitmap_from (fuel : Nat) (lines : List Str) (width height : Int)
    (firstLine : Str) : Except Err (BdfBitmap × List Str) :=
  if ¬ ("BITMAP".toList).isPrefixOf firstLine then .error .expectedBitmap
  else
    ebind (parse_bitmap_loop fuel lines (row_width width * height) 0 []) (fun r =>
      .ok (⟨width, row_width width, height, r.1⟩, r.2))

/-- The function `decodeChunks` only ever raises the malformed-row error. -/
theorem decodeChunks_error_kind (cs : List Str) (e : Err)
    (h : decodeChunks cs = .error e) : e = .malformedBitmapRow := by
  induction cs with
  | nil => simp [decodeChunks] at h
  | cons c cs ih =>
    simp only [decodeChunks] at h
    cases hc : pyIntHex c with
    | none => simp [hc] at h; exact h.symm
    | some b =>
      simp only [hc] at h
      cases h2 : decodeChunks cs with
      | error e2 =>
        rw [h2, ebind_error] at h
        cases h
        exact ih h2
      | ok bs =>
        rw [h2, ebind_ok] at h
        cases h

/-- The function `decodeChunks` fails exactly when some slice is rejected by `int(_, 16)`. -/
theorem decodeChunks_error_iff (cs : List Str) :
    decodeChunks cs = .error .malformedBitmapRow ↔ ∃ c ∈ cs, pyIntHex c = none := by
  induction cs with
  | nil => simp [decodeChunks]
  | cons c cs ih =>
    simp only [decodeChunks]
    cases hc : pyIntHex c with
    | none => simp [hc]
    | some b =>
      simp only [hc]
      cases h2 : decodeChunks cs with
      | error e2 =>
        have he2 := decodeChunks_error_kind cs e2 h2
        subst he2
        simp only [h2, ebind_error]
        constructor
        · intro _
          rcases ih.mp h2 with ⟨c0, hm, hn⟩
          exact ⟨c0, List.mem_cons_of_mem _ hm, hn⟩
        · intro _; trivial
      | ok bs =>
        simp only [h2, ebind_ok]
        constructor
        · intro h; cases h
        · rintro ⟨c0, hm, hn⟩
          rcases List.mem_cons.mp hm with rfl | hm0
          · rw [hn] at hc; cases hc
          · have := ih.mpr ⟨c0, hm0, hn⟩
            rw [this] at h2; cases h2

/-- C6 (amended): a bitmap line makes decoding fail if and only if one of its
2-character slices (whitespace removed) is rejected by Python's `int(_, 16)`;
in particular an odd number of hex characters is NOT an error (the lone final
character is decoded as a one-digit value), and a sign character followed by a
hex digit is accepted. -/
theorem c6_theorem (line : Str) :
    decode_bitmap_line line = .error .malformedBitmapRow ↔
      ∃ c ∈ chunks2 (line.filter (fun c => !pyIsSpace c)), pyIntHex c = none := by
  unfold decode_bitmap_line
  exact decodeChunks_error_iff _

/-- C6 counterexample: the claim says a line contributing an odd number of hex
characters must fail with `MalformedBitmapRow`; but the source decodes the
single line `"F"` (one hex character) without error, producing the byte 15. -/
theorem c6_counterexample :
    parse_bitmap_from 3 ["F".toList] 8 1 ("BITMAP".toList)
      = .ok (⟨8, 8, 1, [15]⟩, []) := by
  rfl

/-- In a successful run of the bitmap loop, the produced data extends the
accumulator by enough bytes to cover the requested bit count. -/
theorem parse_bitmap_loop_le (fuel : Nat) :
    ∀ (lines : List Str) (target br : Int) (acc data : List Int) (rest : List Str),
      parse_bitmap_loop fuel lines target br acc = .ok (data, rest) →
      ∃ ext, data = acc ++ ext ∧ target ≤ br + 8 * (ext.length : Int) := by
  induction fuel with
  | zero => intro lines target br acc data rest h; cases h
  | succ fuel ih =>
    intro lines target br acc data rest h
    simp only [parse_bitmap_loop] at h
    by_cases hlt : br < target
    · rw [if_pos hlt] at h
      cases hd : decode_bitmap_line (nextline lines).1 with
      | error e => rw [hd, ebind_error] at h; cases h
      | ok bs =>
        rw [hd, ebind_ok] at h
        rcases ih _ _ _ _ _ _ h with ⟨ext, hdata, hle⟩
        refine ⟨bs ++ ext, by rw [hdata, List.append_assoc], ?_⟩
        have : ((bs ++ ext).length : Int) = (bs.length : Int) + (ext.length : Int) := by
          simp
        rw [this]
        linarith
    · rw [if_neg hlt] at h
      cases h
      exact ⟨[], by simp, by omega⟩

/-- Invariant proof for the exact-length case: when every line of the stream
contributes exactly `q` bytes (one padded row), the loop stops exactly at the
requested count. -/
theorem parse_bitmap_loop_exact (q hgt : Int) (hq : 0 < q) :
    ∀ (fuel : Nat) (lines : List Str) (k : Int) (acc data : List Int) (rest : List Str),
      (∀ l ∈ lines, skipLine l = false →
          ∃ bs, decode_bitmap_line (trimChars l) = .ok bs ∧ (bs.length : Int) = q) →
      (acc.length : Int) = q * k → 0 ≤ k → k ≤ hgt →
      parse_bitmap_loop fuel lines (8 * q * hgt) (8 * q * k) acc = .ok (data, rest) →
      (data.length : Int) = q * hgt := by
  intro fuel
  induction fuel with
  | zero => intro lines k acc data rest _ _ _ _ h; cases h
  | succ fuel ih =>
    intro lines k acc data rest hlines hacc hk0 hkh h
    simp only [parse_bitmap_loop] at h
    by_cases hlt : 8 * q * k < 8 * q * hgt
    · rw [if_pos hlt] at h
      have hkh' : k < hgt := by
        by_contra hc
        push_neg at hc
        nlinarith
      rcases nextline_line_spec lines with hemp | ⟨l0, hm, hs, he⟩
      · rw [hemp] at h
        have hdec : decode_bitmap_line [] = .ok [] := rfl
        rw [hdec] at h
        simp only [ebind_ok, List.length_nil, Nat.cast_zero, mul_zero, add_zero,
          List.append_nil] at h
        exact ih (nextline lines).2 k acc data rest
          (fun l hl hs0 => hlines l (nextline_rest_subset lines l hl) hs0)
          hacc hk0 hkh h
      · rcases hlines l0 hm hs with ⟨bs, hbs, hlen⟩
        rw [he, hbs] at h
        simp only [ebind_ok] at h
        have harith : 8 * q * k + 8 * (bs.length : Int) = 8 * q * (k + 1) := by
          rw [hlen]; ring
        rw [harith] at h
        have hacc' : (((acc ++ bs).length : Nat) : Int) = q * (k + 1) := by
          rw [List.length_append]
          push_cast
          rw [hacc, hlen]; ring
        exact ih (nextline lines).2 (k + 1) (acc ++ bs) data rest
          (fun l hl hs0 => hlines l (nextline_rest_subset lines l hl) hs0)
          hacc' (by omega) (by omega) h
    · rw [if_neg hlt] at h
      cases h
      have : ¬ k < hgt := by
        intro hc
        exact hlt (by nlinarith)
      have : k = hgt := by omega
      rw [hacc, this]

/-- C3 (amended): on success the decoder's byte buffer covers *at least*
`row_stride_bits(pixel_width)/8 * pixel_height` bytes — the loop stops fetching
further lines once that count is reached, but it appends every byte of the line
it is processing, so a line with excess hex bytes overshoots the count.  When
every (non-blank, non-comment) line of the stream contributes exactly one
padded row of `row_width w / 8` bytes — the standard BDF layout — the length
is exact. -/
theorem c3_theorem (fuel : Nat) (lines : List Str) (w hgt : Int) (fl : Str)
    (bmp : BdfBitmap) (rest : List Str)
    (hok : parse_bitmap_from fuel lines w hgt fl = .ok (bmp, rest)) :
    row_width w * hgt ≤ 8 * (bmp.data.length : Int) ∧
    (0 < w → 0 ≤ hgt →
      (∀ l ∈ lines, skipLine l = false →
          ∃ bs, decode_bitmap_line (trimChars l) = .ok bs ∧
            (bs.length : Int) = (row_width w).fdiv 8) →
      8 * (bmp.data.length : Int) = row_width w * hgt) := by
  unfold parse_bitmap_from at hok
  by_cases hpre : ¬ ("BITMAP".toList).isPrefixOf fl
  · rw [if_pos hpre] at hok; cases hok
  · rw [if_neg hpre] at hok
    cases hloop : parse_bitmap_loop fuel lines (row_width w * hgt) 0 [] with
    | error e => rw [hloop, ebind_error] at hok; cases hok
    | ok p =>
      rw [hloop, ebind_ok] at hok
      cases hok
      rcases parse_bitmap_loop_le fuel lines (row_width w * hgt) 0 [] p.1 p.2 hloop with
        ⟨ext, hdata, hle⟩
      constructor
      · simpa [hdata] using hle
      · intro hw hh hrows
        set q : Int := (w + 7) / 8 with hqdef
        have hq : 0 < q := by
          rw [hqdef]; omega
        have hrw : row_width w = 8 * q := by
          rw [row_width_ediv]; ring
        have hfd : (row_width w).fdiv 8 = q := row_width_fdiv8 w
        have htgt : row_width w * hgt = 8 * q * hgt := by rw [hrw]
        have hzero : ((([] : List Int).length : Nat) : Int) = q * 0 := by simp
        have hloop' : parse_bitmap_loop fuel lines (8 * q * hgt) (8 * q * 0) []
            = .ok (p.1, p.2) := by
          rw [show (8 : Int) * q * 0 = 0 by ring, ← htgt]
          exact hloop
        have hrows' : ∀ l ∈ lines, skipLine l = false →
            ∃ bs, decode_bitmap_line (trimChars l) = .ok bs ∧ (bs.length : Int) = q := by
          intro l hl hs
          rcases hrows l hl hs with ⟨bs, h1, h2⟩
          exact ⟨bs, h1, by rw [h2, hfd]⟩
        have := parse_bitmap_loop_exact q hgt hq fuel lines 0 [] p.1 p.2
          hrows' hzero le_rfl hh hloop'
        rw [this, htgt]
        ring

/-- C3 counterexample: the claim says decoding stops appending as soon as
`ceil(pixel_width/8) * pixel_height` bytes are produced even if the current
line has further hex bytes; but with `pixel_width = 8`, `pixel_height = 1`
(one byte needed) and the single line `"AABB"` the source returns two bytes. -/
theorem c3_counterexample :
    parse_bitmap_from 3 ["AABB".toList] 8 1 ("BITMAP".toList)
        = .ok (⟨8, 8, 1, [170, 187]⟩, []) ∧
      (([(170 : Int), 187].length : Int)) ≠ ((8 : Int) + 7) / 8 * 1 := by
  exact ⟨rfl, by decide⟩

/-! ## Property value parser (`BdfProperty` in `bdf.py`)

The value regex is `\s*(?:(?P<int>-?\d+)|(?P<quoted>"[^"]*")|(?P<unquoted>.+))`,
applied repeatedly by `re.finditer`.  `matchOne` reproduces one engine step:
greedy `\s*` with backtracking, then the three alternatives tried in order.
-/

/-- A scalar inside a `BdfProperty` tuple: Python int or str. -/
inductive PyVal where
  | int (i : Int)
  | str (s : Str)
  deriving DecidableEq

/-- Decimal value of a digit run. -/
def digitsVal (ds : Str) : Int :=
  ds.foldl (fun a c => a * 10 + ((c.toNat - '0'.toNat : Nat) : Int)) 0

/-- The `-?\d+` alternative: optional minus sign, one or more decimal digits
(greedy), returning the value and the rest of the text. -/
def intToken (s : Str) : Option (Int × Str) :=
  let p : Bool × Str := match s with
    | '-' :: r => (true, r)
    | r => (false, r)
  let ds := p.2.takeWhile Char.isDigit
  let rest := p.2.dropWhile Char.isDigit
  if ds = [] then none
  else some ((if p.1 then -digitsVal ds else digitsVal ds), rest)

/-- The `"[^"]*"` alternative: content up to the first closing quote, quotes
stripped, no escape processing. -/
def quotedToken : Str → Option (Str × Str)
  | '"' :: r =>
    match r.dropWhile (fun c => c ≠ '"') with
    | '"' :: rest => some (r.takeWhile (fun c => c ≠ '"'), rest)
    | _ => none
  | _ => none

/-- One `finditer` step of `VALUE_RE` on the remaining text.  When everything
left is whitespace (and nonempty), the greedy `\s*` backtracks one character so
that the `.+` fallback can match: the final token is the last whitespace
character alone. -/
def matchOne (s : Str) : Option (PyVal × Str) :=
  if s = [] then none
  else
    let r := s.dropWhile pyIsSpace
    if r = [] then
      some (.str (s.drop (s.length - 1)), [])
    else
      match intToken r with
      | some iv => some (.int iv.1, iv.2)
      | none =>
        match quotedToken r with
        | some qv => some (.str qv.1, qv.2)
        | none => some (.str r, [])

/-- All `finditer` matches, in order.  Each match consumes at least one
character, so `s.length + 1` fuel always suffices. -/
def finditerTokens : Nat → Str → List PyVal
  | 0, _ => []
  | fuel + 1, s =>
    match matchOne s with
    | none => []
    | some vr => vr.1 :: finditerTokens fuel vr.2

/-- Source `BdfProperty._parse_value`.  The `if not match: raise SyntaxError(...)`
branch of the source loop is dead code: `re.finditer` only ever yields `Match`
objects, which are always truthy, so the translation has no error path and the
result is always `ok`. -/
def parse_value (s : Str) : Except Err (List PyVal) :=
  .ok (finditerTokens (s.length + 1) s)

/-- One tokenization step as the specification's words describe it: try, in
priority order, an optional-sign decimal integer, then a double-quoted string,
then a fallback token consuming the remainder of the text as one string;
whitespace between tokens is skipped, and a position with only whitespace left
simply ends the token stream.  (Modelled from the spec for comparison with the
source's `matchOne`.) -/
def claimTokenStep (s : Str) : Option (PyVal × Str) :=
  let r := s.dropWhile pyIsSpace
  if r = [] then none
  else
    match intToken r with
    | some iv => some (.int iv.1, iv.2)
    | none =>
      match quotedToken r with
      | some qv => some (.str qv.1, qv.2)
      | none => some (.str r, [])

/-- C7 (amended): the value parser never fails — the `.+` fallback matches any
remaining non-empty text, so the source's `MalformedValue` branch is
unreachable — and each tokenization step agrees with the spec's
priority-ordered description except on a token-start position whose remaining
text is whitespace only (there regex backtracking emits one final whitespace
token where the description would stop). -/
theorem c7_theorem :
    (∀ s : Str, ∃ vs, parse_value s = .ok vs) ∧
    (∀ s : Str, (s.dropWhile pyIsSpace ≠ [] ∨ s = []) → matchOne s = claimTokenStep s) := by
  constructor
  · intro s
    exact ⟨finditerTokens (s.length + 1) s, rfl⟩
  · intro s hs
    rcases hs with hne | hemp
    · unfold matchOne claimTokenStep
      have hsne : ¬ s = [] := by
        intro h0
        apply hne
        rw [h0]
        rfl
      rw [if_neg hsne]
      simp only [if_neg hne]
    · subst hemp
      rfl

/-- Witness for `c7_theorem`: applied to the text `"12 x"`. -/
theorem c7_witness :
    (∃ vs, parse_value ("12 x".toList) = .ok vs) ∧
      matchOne ("12 x".toList) = claimTokenStep ("12 x".toList) := by
  refine ⟨c7_theorem.1 ("12 x".toList), c7_theorem.2 ("12 x".toList) (Or.inl (by decide))⟩

/-- C7 counterexample: the claim asserts there exists an input with remaining
non-whitespace content matching no alternative, failing with `MalformedValue`;
but no input makes the parser fail. -/
theorem c7_counterexample : ¬ ∃ (s : Str) (e : Err), parse_value s = .error e := by
  rintro ⟨s, e, h⟩
  simp [parse_value] at h

/-! ## Record parser (`BdfRecord.parse_from` in `bdf.py`) -/

/-- An entry of `record.items`: either a property-value tuple or (under the
`BITMAP` key) a parsed bitmap. -/
inductive Item where
  | prop (vs : List PyVal)
  | bitmap (b : BdfBitmap)

/-- A parsed BDF record: type, opening-tag arguments, item map (as an ordered
association list, matching Python dict insertion order), nested children. -/
inductive BdfRecord where
  | mk (rtype : Str) (args : List Str) (items : List (Str × Item))
      (children : List BdfRecord)

/-- The `field -> value` mapping of a record. -/
def BdfRecord.items : BdfRecord → List (Str × Item)
  | .mk _ _ items _ => items

/-- The nested records of a record. -/
def BdfRecord.children : BdfRecord → List BdfRecord
  | .mk _ _ _ children => children

/-- The record type (`FONT`, `CHAR`, ...). -/
def BdfRecord.rtype : BdfRecord → Str
  | .mk rtype _ _ _ => rtype

/-- Python's `key in record.items` / `record.items[key]` on the ordered map. -/
def lookupItem : List (Str × Item) → Str → Option Item
  | [], _ => none
  | kv :: rest, key => if kv.1 = key then some kv.2 else lookupItem rest key

/-- Source `add_record_item` from `BdfRecord.parse_from`: storing under an existing
key raises `SyntaxError('Repeated ...')` — the spec's `DuplicateKey`. -/
def add_record_item (items : List (Str × Item)) (key : Str) (item : Item) :
    Except Err (List (Str × Item)) :=
  match lookupItem items key with
  | some _ => .error .duplicateKey
  | none => .ok (items ++ [(key, item)])

/-- Python `line.split()`: split on whitespace runs, no empty tokens. -/
def splitWs (s : Str) : List Str :=
  (List.splitOnP pyIsSpace s).filter (fun w => w ≠ [])

/-- Python `line.split(maxsplit=1)` restricted to the two-element unpacking
`key, values_str = ...` done by the source: `none` when the line has fewer
than two tokens (Python then raises `ValueError`). -/
def split1 (s : Str) : Option (Str × Str) :=
  let s1 := s.dropWhile pyIsSpace
  let key := s1.takeWhile (fun c => !pyIsSpace c)
  let rest := (s1.dropWhile (fun c => !pyIsSpace c)).dropWhile pyIsSpace
  if key = [] then none
  else if rest = [] then none
  else some (key, rest)

/-- Python `this_start_tag.replace('START', 'END')`: replace every
(leftmost, non-overlapping) occurrence. -/
def replaceStartEnd : Str → Str
  | 'S' :: 'T' :: 'A' :: 'R' :: 'T' :: rest => 'E' :: 'N' :: 'D' :: replaceStartEnd rest
  | c :: cs => c :: replaceStartEnd cs
  | [] => []

/-- Does `START` occur anywhere in the string? -/
def hasSTART : Str → Bool
  | [] => false
  | c :: cs => ("START".toList).isPrefixOf (c :: cs) || hasSTART cs

/-- Python `int(x)` on a property scalar, as `BdfBitmap.__init__`'s
`int(width)` performs it: ints pass through, strings are parsed as
optionally-signed decimal numerals (`ValueError` otherwise). -/
def pyInt : PyVal → Except Err Int
  | .int i => .ok i
  | .str s =>
    let t := trimChars s
    let p : Bool × Str := match t with
      | '-' :: r => (true, r)
      | '+' :: r => (false, r)
      | r => (false, r)
    if p.2 ≠ [] ∧ p.2.all Char.isDigit then
      .ok (if p.1 then -digitsVal p.2 else digitsVal p.2)
    else .error .valueError

mutual

/-- Source `BdfRecord.parse_from(stream, expected_type, first_line)`.  The
`first_line` argument, when present, replaces fetching a line from the
stream. -/
def parse_record_from : Nat → List Str → Option Str → Option Str →
    Except Err (BdfRecord × List Str)
  | 0, _, _, _ => .error .outOfFuel
  | fuel + 1, lines, expectedType, firstLine? =>
    let fl : Str × List Str :=
      match firstLine? with
      | some l => (l, lines)
      | none => nextline lines
    let expectedStartTag : Str :=
      match expectedType with
      | some t => "START".toList ++ t
      | none => []
    if ¬ expectedStartTag.isPrefixOf fl.1 then .error .unexpectedRecordKind
    else
      match splitWs fl.1 with
      | [] => .error .valueError
      | tag :: args => parse_loop fuel fl.2 tag args [] []

/-- The `while line and not line.startswith('END')` loop of
`BdfRecord.parse_from` together with the closing-tag check that follows it:
`tag` is the opening `START...` token, `items`/`children` the record contents
accumulated so far.  On the exit line (`END...` or end of stream) the source
compares it against `this_start_tag.replace('START', 'END')` and fails with
the spec's `MismatchedEndTag` when they differ. -/
def parse_loop : Nat → List Str → Str → List Str → List (Str × Item) →
    List BdfRecord → Except Err (BdfRecord × List Str)
  | 0, _, _, _, _, _ => .error .outOfFuel
  | fuel + 1, lines, tag, args, items, children =>
    let nl := nextline lines
    if nl.1 = [] ∨ ("END".toList).isPrefixOf nl.1 then
      if nl.1 = replaceStartEnd tag then
        .ok (.mk (tag.drop ("START".toList).length) args items children, nl.2)
      else .error .mismatchedEnd
    else if ("START".toList).isPrefixOf nl.1 then
      ebind (parse_record_from fuel nl.2 none (some nl.1)) (fun cr =>
        parse_loop fuel cr.2 tag args items (children ++ [cr.1]))
    else if ("BITMAP".toList).isPrefixOf nl.1 then
      match lookupItem items ("BBX".toList) with
      | none => .error .missingBBX
      | some (.bitmap _) => .error .typeError
      | some (.prop vs) =>
        match vs with
        | v0 :: v1 :: _ =>
          ebind (pyInt v0) (fun bmpW =>
            ebind (pyInt v1) (fun bmpH =>
              ebind (parse_bitmap_from fuel nl.2 bmpW bmpH nl.1) (fun br =>
                ebind (add_record_item items ("BITMAP".toList) (.bitmap br.1)) (fun items2 =>
                  parse_loop fuel br.2 tag args items2 children))))
        | _ => .error .valueError
    else
      match split1 nl.1 with
      | none => .error .valueError
      | some kv =>
        ebind (parse_value kv.2) (fun vs =>
          ebind (add_record_item items kv.1 (.prop vs)) (fun items2 =>
            parse_loop fuel nl.2 tag args items2 children))

end

/-- Behavior of `replaceStartEnd` on a string not matching `START` at its head steps over
the first character. -/
theorem replaceStartEnd_cons (c : Char) (cs : Str)
    (h : ("START".toList).isPrefixOf (c :: cs) = false) :
    replaceStartEnd (c :: cs) = c :: replaceStartEnd cs := by
  rw [replaceStartEnd.eq_def]
  split
  · rename_i rest heq
    exfalso
    rw [heq] at h
    simp [List.isPrefixOf] at h
  · rename_i x1 c2 cs2 hno heq
    injection heq with h1 h2
    subst h1
    subst h2
    rfl
  · rename_i x heq
    cases heq

/-- A string without any `START` occurrence is left unchanged by
`replace('START', 'END')`. -/
theorem replaceStartEnd_no_start (k : Str) (h : hasSTART k = false) :
    replaceStartEnd k = k := by
  induction k with
  | nil => rfl
  | cons c cs ih =>
    simp only [hasSTART, Bool.or_eq_false_iff] at h
    rw [replaceStartEnd_cons c cs h.1, ih h.2]

/-- Splitting a successful `ebind` into its two successful stages. -/
theorem ebind_eq_ok {α β : Type} {x : Except Err α} {f : α → Except Err β} {b : β}
    (h : ebind x f = .ok b) : ∃ a, x = .ok a ∧ f a = .ok b := by
  cases x with
  | error e => rw [ebind_error] at h; cases h
  | ok a => exact ⟨a, rfl, h⟩

/-- C4 (amended): parsing the body of a record whose opening token is
`START ++ kind` fails with `MismatchedEndTag` when the stream ends before a
closing line, and — provided `kind` itself contains no occurrence of `START`
(true of every BDF record kind: `FONT`, `PROPERTIES`, `CHAR`, ...) — when the
next structural line is an `END` tag of a kind different from `kind`; in
neither case is a record returned.  (Without the proviso the comparison
against `opener.replace('START', 'END')` can accept a wrong-kind closer, see
the counterexample.) -/
theorem c4_theorem (fuel : Nat) (k : Str) (args : List Str)
    (items : List (Str × Item)) (children : List BdfRecord) :
    (parse_loop (fuel + 1) [] ("START".toList ++ k) args items children
        = .error .mismatchedEnd) ∧
    (hasSTART k = false →
      ∀ (t : Str) (rest : List Str), t ≠ k →
        trimChars ("END".toList ++ t) = "END".toList ++ t →
        parse_loop (fuel + 1) (("END".toList ++ t) :: rest) ("START".toList ++ k)
            args items children = .error .mismatchedEnd) := by
  constructor
  · simp only [parse_loop, nextline]
    rw [if_pos (Or.inl trivial)]
    rw [if_neg ?_]
    intro hcontra
    rw [show replaceStartEnd ("START".toList ++ k) = 'E' :: 'N' :: 'D' :: replaceStartEnd k
        from rfl] at hcontra
    cases hcontra
  · intro hk t rest hne htrim
    have hskip : skipLine ("END".toList ++ t) = false := by
      simp [skipLine, pyIsSpace, List.isPrefixOf]
    simp only [parse_loop, nextline, hskip, if_false, Bool.false_eq_true, htrim]
    have hend : ("END".toList).isPrefixOf ("END".toList ++ t) = true :=
      List.isPrefixOf_iff_prefix.mpr (List.prefix_append _ _)
    rw [if_pos (Or.inr hend)]
    rw [if_neg ?_]
    intro hcontra
    rw [show replaceStartEnd ("START".toList ++ k) = 'E' :: 'N' :: 'D' :: replaceStartEnd k
        from rfl, replaceStartEnd_no_start k hk] at hcontra
    have : t = k := by
      have := hcontra
      simpa using this
    exact hne this

/-- Witness for `c4_theorem`: a `FONT` record body, hitting end-of-stream, and
closed by `ENDCHAR`. -/
theorem c4_witness :
    (parse_loop 1 [] ("START".toList ++ "FONT".toList) [] [] []
        = .error .mismatchedEnd) ∧
      parse_loop 1 [("END".toList ++ "CHAR".toList)] ("START".toList ++ "FONT".toList)
          [] [] [] = .error .mismatchedEnd :=
  ⟨(c4_theorem 0 ("FONT".toList) [] [] []).1,
   (c4_theorem 0 ("FONT".toList) [] [] []).2 (by decide) ("CHAR".toList) []
     (by decide) (by decide)⟩

/-- C4 counterexample: the claim says a closing `END` tag of a kind different
from the record's opening kind always fails; but an opener `STARTSTARTX`
(kind `STARTX`) is accepted when closed by `ENDENDX` (kind `ENDX`), because
the source compares against `opener.replace('START', 'END')`, which replaces
every occurrence.  The parse succeeds and returns the record. -/
theorem c4_counterexample :
    parse_record_from 2 ["ENDENDX".toList] none (some ("STARTSTARTX".toList))
      = .ok (.mk ("STARTX".toList) [] [] [], []) := by
  rfl

/-! ## Duplicate keys (C8) -/

/-- Key-uniqueness invariant, recursively through nested records. -/
inductive GoodKeys : BdfRecord → Prop where
  | mk : ∀ (t : Str) (args : List Str) (items : List (Str × Item))
      (children : List BdfRecord),
      (items.map Prod.fst).Nodup →
      (∀ c ∈ children, GoodKeys c) →
      GoodKeys (.mk t args items children)

/-- The lookup `lookupItem` misses exactly the keys absent from the key list. -/
theorem lookupItem_none_iff (items : List (Str × Item)) (key : Str) :
    lookupItem items key = none ↔ key ∉ items.map Prod.fst := by
  induction items with
  | nil => simp [lookupItem]
  | cons kv rest ih =>
    simp only [lookupItem, List.map_cons, List.mem_cons]
    by_cases h : kv.1 = key
    · rw [if_pos h]
      constructor
      · intro hcontra
        cases hcontra
      · intro hn
        exact absurd (Or.inl h.symm) hn
    · rw [if_neg h, ih]
      constructor
      · intro hn hmem
        rcases hmem with heq | hmem2
        · exact h heq.symm
        · exact hn hmem2
      · intro hn hmem
        exact hn (Or.inr hmem)

/-- A successful `add_record_item` preserves key uniqueness. -/
theorem add_record_item_nodup (items : List (Str × Item)) (key : Str) (it : Item)
    (items2 : List (Str × Item)) (h : add_record_item items key it = .ok items2)
    (hnd : (items.map Prod.fst).Nodup) : (items2.map Prod.fst).Nodup := by
  unfold add_record_item at h
  cases hl : lookupItem items key with
  | some v => rw [hl] at h; cases h
  | none =>
    rw [hl] at h
    cases h
    rw [List.map_append, List.nodup_append]
    refine ⟨hnd, by simp, ?_⟩
    intro x hx
    simp only [List.map_cons, List.map_nil, List.mem_singleton]
    intro hxk
    exact (lookupItem_none_iff items key).mp hl (hxk ▸ hx)

/-- Every record produced by a successful parse satisfies `GoodKeys`, at every
nesting level. -/
theorem parse_goodKeys (fuel : Nat) :
    (∀ lines expectedType firstLine r rest,
        parse_record_from fuel lines expectedType firstLine = .ok (r, rest) →
        GoodKeys r) ∧
    (∀ lines tag args items children r rest,
        (items.map Prod.fst).Nodup → (∀ c ∈ children, GoodKeys c) →
        parse_loop fuel lines tag args items children = .ok (r, rest) →
        GoodKeys r) := by
  induction fuel with
  | zero =>
    constructor
    · intro lines et fl r rest h
      cases h
    · intro lines tag args items children r rest _ _ h
      cases h
  | succ fuel ih =>
    obtain ⟨ihr, ihl⟩ := ih
    constructor
    · intro lines et fl r rest h
      simp only [parse_record_from] at h
      split at h
      · cases h
      · split at h
        · cases h
        · exact ihl _ _ _ _ _ _ _ (by simp)
            (fun c hc => absurd hc (List.not_mem_nil c)) h
    · intro lines tag args items children r rest hnd hch h
      simp only [parse_loop] at h
      split at h
      · split at h
        · cases h
          exact GoodKeys.mk _ _ _ _ hnd hch
        · cases h
      · split at h
        · rcases ebind_eq_ok h with ⟨cr, hcr, h2⟩
          refine ihl _ _ _ _ _ _ _ hnd ?_ h2
          intro c hc
          rcases List.mem_append.mp hc with hc1 | hc2
          · exact hch c hc1
          · rcases List.mem_singleton.mp hc2 with rfl
            exact ihr _ _ _ _ _ hcr
        · split at h
          · cases hbbx : lookupItem items ("BBX".toList) with
            | none => rw [hbbx] at h; cases h
            | some it =>
              rw [hbbx] at h
              cases it with
              | bitmap b => cases h
              | prop vs =>
                match vs, h with
                | [], h => cases h
                | [v0], h => cases h
                | v0 :: v1 :: vrest, h =>
                  rcases ebind_eq_ok h with ⟨w0, hw0, h2⟩
                  rcases ebind_eq_ok h2 with ⟨h0, hh0, h3⟩
                  rcases ebind_eq_ok h3 with ⟨br, hbr, h4⟩
                  rcases ebind_eq_ok h4 with ⟨items2, hadd, h5⟩
                  exact ihl _ _ _ _ _ _ _
                    (add_record_item_nodup _ _ _ _ hadd hnd) hch h5
          · split at h
            · cases h
            · rcases ebind_eq_ok h with ⟨vs, hvs, h2⟩
              rcases ebind_eq_ok h2 with ⟨items2, hadd, h3⟩
              exact ihl _ _ _ _ _ _ _
                (add_record_item_nodup _ _ _ _ hadd hnd) hch h3

/-- C8: storing a value under a key already present in a record's items (the
`BITMAP` key included, which goes through the same `add_record_item`) fails
with `DuplicateKey`; consequently every successfully parsed record — children
included — has pairwise-distinct keys in `items`. -/
theorem c8_theorem :
    (∀ (items : List (Str × Item)) (key : Str) (it : Item),
        lookupItem items key ≠ none →
        add_record_item items key it = .error .duplicateKey) ∧
    (∀ (fuel : Nat) (lines : List Str) (expectedType firstLine : Option Str)
        (r : BdfRecord) (rest : List Str),
        parse_record_from fuel lines expectedType firstLine = .ok (r, rest) →
        GoodKeys r) := by
  constructor
  · intro items key it hmem
    unfold add_record_item
    cases hl : lookupItem items key with
    | some v => rfl
    | none => exact absurd hl hmem
  · intro fuel lines et fl r rest h
    exact (parse_goodKeys fuel).1 lines et fl r rest h

/-- Witness for `c8_theorem`: a duplicate `SIZE` key is rejected, and the
record parsed from `STARTFONT 2.1 / ENDFONT` has unique keys. -/
theorem c8_witness :
    add_record_item [("A".toList, Item.prop [])] ("A".toList) (Item.prop [])
        = .error .duplicateKey ∧
      GoodKeys (.mk ("FONT".toList) ["2.1".toList] [] []) :=
  ⟨c8_theorem.1 _ _ _ (by simp [lookupItem]),
   c8_theorem.2 3 ["ENDFONT".toList] (some ("FONT".toList))
     (some ("STARTFONT 2.1".toList)) (.mk ("FONT".toList) ["2.1".toList] [] []) []
     (by rfl)⟩

/-! ## Font model (`BdfFont` in `bdf.py`) and header emitter (`fontconv.py`) -/

/-- Source `font.py` `BBox` namedtuple, made from the parsed `FONTBOUNDINGBOX`
property values (dynamically typed in Python, hence `PyVal` fields). -/
structure BBox where
  w : PyVal
  h : PyVal
  ox : PyVal
  oy : PyVal

/-- Source `BdfFont`: validated view over a FONT record.  Descriptive fields default
to `None` when the property is absent (`getval(..., None)`). -/
structure Font where
  bbox : BBox
  family : Option PyVal
  weight : Option PyVal
  logical_name : Option PyVal
  copyright : Option PyVal
  chars : List (Int × BdfRecord)

/-- Python `self._chars.get(code, None)`. -/
def lookupChar : List (Int × BdfRecord) → Int → Option BdfRecord
  | [], _ => none
  | cr :: rest, code => if cr.1 = code then some cr.2 else lookupChar rest code

/-- Source `BdfFont.render_char(code)`: `None` for a missing character, the raw byte
rows otherwise; raises (the spec's `InconsistentGlyphBox`) when the CHAR's
`BBX` width or height differs from the font-wide box.  Python's `or`
short-circuits, so `char_bbox[1]` is only evaluated when the width matched. -/
def render_char (font : Font) (code : Int) : Except Err (Option (List Int)) :=
  match lookupChar font.chars code with
  | none => .ok none
  | some char_record =>
    match lookupItem char_record.items ("BBX".toList) with
    | none => .error .keyError
    | some (.bitmap _) => .error .typeError
    | some (.prop char_bbox) =>
      match char_bbox.get? 0 with
      | none => .error .indexError
      | some b0 =>
        if b0 ≠ font.bbox.w then .error .inconsistentGlyphBox
        else
          match char_bbox.get? 1 with
          | none => .error .indexError
          | some b1 =>
            if b1 ≠ font.bbox.h then .error .inconsistentGlyphBox
            else
              match lookupItem char_record.items ("BITMAP".toList) with
              | none => .error .keyError
              | some (.prop _) => .error .attributeError
              | some (.bitmap b) => .ok (some b.data)

/-- Python `str.upper()` on a property scalar; an int has no `upper` method. -/
def pyUpperVal : PyVal → Except Err Str
  | .str s => .ok (s.map Char.toUpper)
  | .int _ => .error .attributeError

/-- Source `normname` from `emit_mono_font_header`: non-alphanumeric characters
become underscores. -/
def normname (name : Str) : Str :=
  name.map (fun ch => if ch.isAlphanum then ch else '_')

/-- Str(value) interpolation of a property scalar into an f-string. -/
def pyStrOfVal : PyVal → Str
  | .int i => (toString i).toList
  | .str s => s

/-- Output events: the emitter's writes to its sink (and, for
`warnMissing`, to stderr), abstracted from the textual formatting, which the
spec declares a presentation detail. -/
inductive Ev where
  | headerStart (varname : Str) (dataSize : Int)
  | warnMissing (code : Int)
  | charComment (code : Int) (missing : Bool)
  | byte (b : Int)
  | footerEnd (varname : Str)
  deriving DecidableEq

/-- The body of `fontconv.py`'s per-character loop: render, substitute the
zero-filled buffer with a warning when the glyph is `None` (or an empty list —
`if not char_bitmap:`), then emit the comment line and the bytes. -/
def emit_char (font : Font) (empty_char_bitmap : List Int) (ich : Int) :
    List Ev × Option Err :=
  match render_char font ich with
  | .error e => ([], some e)
  | .ok res =>
    match (match res with
           | none => none
           | some bs => if bs = [] then none else some bs) with
    | none =>
      (Ev.warnMissing ich :: Ev.charComment ich true ::
        empty_char_bitmap.map Ev.byte, none)
    | some bs =>
      (Ev.charComment ich (decide (bs = empty_char_bitmap)) :: bs.map Ev.byte, none)

/-- The `for ich in range(first_ch, last_ch + 1)` loop: an exception aborts
emission with the output produced so far. -/
def emit_chars (font : Font) (empty_char_bitmap : List Int) :
    List Int → List Ev × Option Err
  | [] => ([], none)
  | c :: cs =>
    let p := emit_char font empty_char_bitmap c
    match p.2 with
    | some e => (p.1, some e)
    | none =>
      let q := emit_chars font empty_char_bitmap cs
      (p.1 ++ q.1, q.2)

/-- Python `range(a, b + 1)` as a list of `Int`s. -/
def intRange (a b : Int) : List Int :=
  (List.range (b + 1 - a).toNat).map (fun i => a + (i : Int))

/-- Source `fontconv.py` `emit_mono_font_header(font, first_ch, last_ch, stream)`,
returning the event trace written before returning or raising, and the raised
exception if any.  Source subtleties kept: the `first_ch, last_ch = first_ch,
last_ch` "swap" on a reversed range is a no-op self-assignment; the header
variable name (needing `family.upper()` / `weight.upper()`) is built before
the data-size arithmetic.  A non-integer bounding-box entry makes that
arithmetic fail (`TypeError` on a string width inside `row_width`; a string
height survives as string repetition only to fail at the zero-buffer
multiplication); the model collapses both to `typeError` — no claim quantifies
over non-integer boxes. -/
def emit_mono_font_header (font : Font) (first_ch0 last_ch0 : Int) :
    List Ev × Option Err :=
  let p := if first_ch0 > last_ch0 then (first_ch0, last_ch0) else (first_ch0, last_ch0)
  let first_ch := p.1
  let last_ch := p.2
  if ¬ (0 ≤ first_ch ∧ first_ch ≤ 255) ∨ ¬ (0 ≤ last_ch ∧ last_ch ≤ 255) then
    ([], some .invalidRange)
  else
    match font.family with
    | none => ([], some .attributeError)
    | some fam =>
      match pyUpperVal fam with
      | .error e => ([], some e)
      | .ok famU =>
        match font.weight with
        | none => ([], some .attributeError)
        | some wt =>
          match pyUpperVal wt with
          | .error e => ([], some e)
          | .ok wtU =>
            let h_varname := "FONT_".toList ++ normname famU ++ "_".toList ++
              normname wtU ++ "_".toList ++ pyStrOfVal font.bbox.w ++ "_".toList ++
              pyStrOfVal font.bbox.h
            match font.bbox.w, font.bbox.h with
            | .int w, .int hgt =>
              let h_data_size := (row_width w).fdiv 8 * hgt * (last_ch - first_ch + 1)
              let empty_char_bitmap : List Int :=
                List.replicate ((row_width w).fdiv 8 * hgt).toNat 0
              let body := emit_chars font empty_char_bitmap (intRange first_ch last_ch)
              match body.2 with
              | some e => (Ev.headerStart h_varname h_data_size :: body.1, some e)
              | none =>
                (Ev.headerStart h_varname h_data_size :: body.1 ++
                  [Ev.footerEnd h_varname], none)
            | _, _ => ([], some .typeError)

/-- The function `pyUpperVal` can only raise `AttributeError`. -/
theorem pyUpperVal_error (v : PyVal) (e : Err) (h : pyUpperVal v = .error e) :
    e = .attributeError := by
  cases v with
  | str s => cases h
  | int i => cases h; rfl

/-- C1 (amended): the header emitter fails with `InvalidCharacterRange`, with
nothing written to the sink, exactly when `first_ch` or `last_ch` lies outside
`[0, 255]`; a reversed range with both ends in `[0, 255]` is NOT rejected —
the source's `first_ch, last_ch = first_ch, last_ch` swap is a no-op
self-assignment, so validation passes and an empty glyph range is emitted. -/
theorem c1_theorem (font : Font) (first_ch last_ch : Int)
    (h : first_ch < 0 ∨ 255 < first_ch ∨ last_ch < 0 ∨ 255 < last_ch) :
    emit_mono_font_header font first_ch last_ch = ([], some .invalidRange) := by
  simp only [emit_mono_font_header, ite_self]
  rw [if_pos (by omega)]

/-- Witness for `c1_theorem` at `first_ch = 300` (the spec's scenario 4). -/
theorem c1_witness :
    emit_mono_font_header
        ⟨⟨.int 8, .int 8, .int 0, .int 0⟩, some (.str ("A".toList)),
          some (.str ("B".toList)), none, none, []⟩ 300 10
      = ([], some .invalidRange) :=
  c1_theorem _ 300 10 (by omega)

/-- C1 counterexample: the claim says every pair with
`0 ≤ first ≤ last ≤ 255` violated — including `first > last` with both in
`[0, 255]` — fails with `InvalidCharacterRange`; but `first = 1 > 0 = last`
emits a (degenerate, empty-range) header successfully. -/
theorem c1_counterexample :
    emit_mono_font_header
        ⟨⟨.int 8, .int 8, .int 0, .int 0⟩, some (.str ("A".toList)),
          some (.str ("B".toList)), none, none, []⟩ 1 0
      = ([Ev.headerStart ("FONT_A_B_8_8".toList) 0,
          Ev.footerEnd ("FONT_A_B_8_8".toList)], none) := by
  rfl

/-- C10: with a valid character range, a font whose `FAMILY_NAME` or
`WEIGHT_NAME` is absent (field `None`, as the data model allows) makes
`emit_mono_font_header` raise `AttributeError` (`None.upper()`) while building
the header variable name, before anything is written to the sink. -/
theorem c10_theorem (font : Font) (first_ch last_ch : Int)
    (h1 : 0 ≤ first_ch) (h2 : first_ch ≤ 255) (h3 : 0 ≤ last_ch)
    (h4 : last_ch ≤ 255) (h5 : font.family = none ∨ font.weight = none) :
    emit_mono_font_header font first_ch last_ch = ([], some .attributeError) := by
  simp only [emit_mono_font_header, ite_self]
  rw [if_neg (by omega)]
  rcases h5 with hf | hw
  · rw [hf]
  · cases hff : font.family with
    | none => rfl
    | some fam =>
      simp only [hff]
      cases hup : pyUpperVal fam with
      | error e =>
        have he := pyUpperVal_error fam e hup
        subst he
        simp [hup]
      | ok famU =>
        simp [hup, hw]

/-- Witness for `c10_theorem`: a family-less font over the full ASCII range. -/
theorem c10_witness :
    emit_mono_font_header
        ⟨⟨.int 8, .int 8, .int 0, .int 0⟩, none, some (.str ("B".toList)),
          none, none, []⟩ 0 255
      = ([], some .attributeError) :=
  c10_theorem _ 0 255 (by omega) (by omega) (by omega) (by omega) (Or.inl rfl)

/-- C5: `render_char` returns absent (`ok none`, no error) for a code outside
the glyph table; fails with `InconsistentGlyphBox` for a present code whose
`BBX` width — or, when the width matches, height — differs from the font-wide
box; and succeeds with the stored bytes for a present, consistent code, so
failures are per-code and other codes are unaffected. -/
theorem c5_theorem :
    (∀ (font : Font) (code : Int), lookupChar font.chars code = none →
        render_char font code = .ok none) ∧
    (∀ (font : Font) (code : Int) (r : BdfRecord) (bbx : List PyVal) (b0 : PyVal),
        lookupChar font.chars code = some r →
        lookupItem r.items ("BBX".toList) = some (.prop bbx) →
        bbx.get? 0 = some b0 →
        (b0 ≠ font.bbox.w ∨ ∃ b1, bbx.get? 1 = some b1 ∧ b1 ≠ font.bbox.h) →
        render_char font code = .error .inconsistentGlyphBox) ∧
    (∀ (font : Font) (code : Int) (r : BdfRecord) (bbx : List PyVal) (b : BdfBitmap),
        lookupChar font.chars code = some r →
        lookupItem r.items ("BBX".toList) = some (.prop bbx) →
        bbx.get? 0 = some font.bbox.w →
        bbx.get? 1 = some font.bbox.h →
        lookupItem r.items ("BITMAP".toList) = some (.bitmap b) →
        render_char font code = .ok (some b.data)) := by
  refine ⟨?_, ?_, ?_⟩
  · intro font code h
    unfold render_char
    rw [h]
  · intro font code r bbx b0 hc hbbx h0 hbad
    unfold render_char
    simp only [hc, hbbx, h0]
    by_cases hw : b0 ≠ font.bbox.w
    · rw [if_pos hw]
    · rw [if_neg hw]
      rcases hbad with hbad | ⟨b1, h1, hh⟩
      · exact absurd hbad hw
      · simp only [h1]
        rw [if_pos hh]
  · intro font code r bbx b hc hbbx h0 h1 hbmp
    unfold render_char
    simp only [hc, hbbx, h0, h1, hbmp]
    rw [if_neg (by simp), if_neg (by simp)]

/-- Sample font for the `c5_theorem` witness: code 65 consistent, code 66 with
a wrong `BBX` width, code 67 absent. -/
def fontC5 : Font :=
  ⟨⟨.int 8, .int 8, .int 0, .int 0⟩, some (.str ("A".toList)),
    some (.str ("B".toList)), none, none,
    [(65, .mk ("CHAR".toList) []
        [(("BBX".toList), .prop [.int 8, .int 8, .int 0, .int 0]),
         (("BITMAP".toList), .bitmap ⟨8, 8, 1, [255]⟩)] []),
     (66, .mk ("CHAR".toList) []
        [(("BBX".toList), .prop [.int 7, .int 8, .int 0, .int 0]),
         (("BITMAP".toList), .bitmap ⟨7, 8, 1, [254]⟩)] [])]⟩

/-- Witness for `c5_theorem`: all three behaviors on `fontC5`. -/
theorem c5_witness :
    render_char fontC5 67 = .ok none ∧
      render_char fontC5 66 = .error .inconsistentGlyphBox ∧
      render_char fontC5 65 = .ok (some [255]) :=
  ⟨c5_theorem.1 fontC5 67 (by rfl),
   c5_theorem.2.1 fontC5 66 _ [.int 7, .int 8, .int 0, .int 0] (.int 7)
     (by rfl) (by rfl) (by rfl) (Or.inl (by decide)),
   c5_theorem.2.2 fontC5 65 _ [.int 8, .int 8, .int 0, .int 0] ⟨8, 8, 1, [255]⟩
     (by rfl) (by rfl) (by rfl) (by rfl) (by rfl)⟩

/-! ## The `bdfconv.py` emitter's missing-glyph crash (C2) -/

/-- The body of `bdfconv.py`'s per-character loop (`emit_mono_bdf_header`,
lines 223-246).  For a present code it validates `BBX` against the font-wide
box and emits the stored bitmap's bytes; for a missing code it prints the
warning and substitutes `empty_char_bitmap` — a plain Python list — and then
crashes with `AttributeError` at `for byte in char_bitmap.data`, after the
comment line was already printed: a list has no `.data` attribute. -/
def emit_bdf_char (font_chars : List (Int × BdfRecord)) (font_w font_h : PyVal)
    (empty_char_bitmap : List Int) (ich : Int) : List Ev × Option Err :=
  match lookupChar font_chars ich with
  | some char_record =>
    match lookupItem char_record.items ("BBX".toList) with
    | none => ([], some .keyError)
    | some (.bitmap _) => ([], some .typeError)
    | some (.prop char_bbox) =>
      match char_bbox.get? 0 with
      | none => ([], some .indexError)
      | some b0 =>
        if b0 ≠ font_w then ([], some .inconsistentGlyphBox)
        else
          match char_bbox.get? 1 with
          | none => ([], some .indexError)
          | some b1 =>
            if b1 ≠ font_h then ([], some .inconsistentGlyphBox)
            else
              match lookupItem char_record.items ("BITMAP".toList) with
              | none => ([], some .keyError)
              | some (.bitmap b) =>
                (Ev.charComment ich false :: b.data.map Ev.byte, none)
              | some (.prop _) => ([Ev.charComment ich false], some .attributeError)
  | none =>
    ([Ev.warnMissing ich, Ev.charComment ich true], some .attributeError)

/-- C2, evaluated at the failing input: requesting code 65 from a font with no
glyphs makes `bdfconv.py`'s emitter print the warning and the `(MISSING)`
comment and then raise `AttributeError` instead of writing the zero-filled
buffer and continuing (`empty_char_bitmap` is a plain list, but the byte loop
reads `char_bitmap.data`). -/
theorem c2_theorem :
    emit_bdf_char [] (.int 8) (.int 8) (List.replicate 8 0) 65
      = ([Ev.warnMissing 65, Ev.charComment 65 true], some Err.attributeError) := by
  rfl

/-- Witness for `c3_theorem`: an 8×1 bitmap fed the single line `"AA"`. -/
theorem c3_witness :
    row_width 8 * 1 ≤ 8 * ((⟨8, 8, 1, [170]⟩ : BdfBitmap).data.length : Int) ∧
    (0 < (8 : Int) → 0 ≤ (1 : Int) →
      (∀ l ∈ ["AA".toList], skipLine l = false →
          ∃ bs, decode_bitmap_line (trimChars l) = .ok bs ∧
            (bs.length : Int) = (row_width 8).fdiv 8) →
      8 * ((⟨8, 8, 1, [170]⟩ : BdfBitmap).data.length : Int) = row_width 8 * 1) :=
  c3_theorem 3 ["AA".toList] 8 1 ("BITMAP".toList) ⟨8, 8, 1, [170]⟩ [] rfl

end Weegfx
